import Mathlib

/-!
Verification of the color-art core against its specification.

The Rust sources embedded here:
  - src/parser/rgb.rs          (`parser_rgb_str`)
  - src/conversion/hsl.rs      (`hsl2rgb`, `rgb2hsl`)
  - src/color/stringify.rs     (`Color::hex`, `Color::rgba`, `Color::hsl`, ..., `Color::name`)
  - src/color_generator/average.rs (`Color::average`)

Strings are modelled as `List Char`; `f64` values flowing through the parser are
modelled as `FVal` (an exact rational or one of NaN / +inf / -inf, with IEEE-style
comparison semantics: every comparison against NaN is false).  Arithmetic in the
conversion layer is modelled over `ℚ` (the claims under study constrain inputs to
ranges where `f64` and exact rational arithmetic agree on every branch taken).
A few helpers of the crate (`utils::round`, `Color::new`, hex conversion, the
named-color table) are not among the provided sources; each such definition is
marked `Modelled from the spec:` and follows the specification's words.
-/

/-- Rust `char::is_whitespace` restricted to the ASCII whitespace the claims
exercise (`str::trim` trims these from both ends). -/
def isRustWhitespace (c : Char) : Bool :=
  c = ' ' || c = '\t' || c = '\n' || c = '\r'

/-- Rust `str::trim`: drop whitespace from both ends. -/
def trimStr (l : List Char) : List Char :=
  ((l.dropWhile isRustWhitespace).reverse.dropWhile isRustWhitespace).reverse

/-- Rust `str::to_lowercase` (ASCII behaviour). -/
def lowerStr (l : List Char) : List Char :=
  l.map Char.toLower

/-- One step bound used to run `removeAllAux` with enough fuel. -/
def removeAllAux (p : List Char) : ℕ → List Char → List Char
  | _, [] => []
  | 0, l => l
  | fuel + 1, c :: rest =>
    if p.isPrefixOf (c :: rest) ∧ p ≠ [] then
      removeAllAux p fuel (List.drop p.length (c :: rest))
    else
      c :: removeAllAux p fuel rest

/-- Rust `str::replace(pat, "")`: delete every occurrence of `pat`, scanning
left to right without overlap. -/
def removeAll (p l : List Char) : List Char :=
  removeAllAux p l.length l

/-- IEEE-style `f64` value as the parser sees it: an exact rational, NaN, or a
signed infinity.  (Finite decimal literals are kept exact rather than rounded
to 53-bit floats; on the inputs the claims exercise the two agree.) -/
inductive FVal where
  | finite (q : ℚ)
  | nan
  | inf
  | neginf
deriving DecidableEq

/-- IEEE `<` on `f64` values: any comparison involving NaN is false. -/
def FVal.lt : FVal → FVal → Bool
  | .finite a, .finite b => a < b
  | .finite _, .inf => true
  | .neginf, .finite _ => true
  | .neginf, .inf => true
  | _, _ => false

/-- IEEE `>=` on `f64` values: false whenever either side is NaN. -/
def FVal.ge : FVal → FVal → Bool
  | .finite a, .finite b => b ≤ a
  | .inf, .finite _ => true
  | .inf, .inf => true
  | .inf, .neginf => true
  | .finite _, .neginf => true
  | .neginf, .neginf => true
  | _, _ => false

/-- Fractional digits of a rational in `[0,1)`, fuel-bounded (every value the
claims print has a finite decimal expansion well inside the fuel). -/
def fracDigits : ℕ → ℚ → List Char
  | 0, _ => []
  | fuel + 1, q =>
    if q = 0 then []
    else
      let d : ℕ := (⌊q * 10⌋).toNat
      Char.ofNat ('0'.toNat + d) :: fracDigits fuel (q * 10 - d)

/-- Display of a nonnegative rational the way Rust's `{}` displays an `f64`
holding that exact value: no trailing `.0` for integers, else the decimal
expansion without trailing zeros. -/
def fmtQnonneg (q : ℚ) : String :=
  let ip : ℕ := (⌊q⌋).toNat
  let fr : ℚ := q - (⌊q⌋ : ℚ)
  if fr = 0 then toString ip
  else toString ip ++ "." ++ String.mk (fracDigits 40 fr)

/-- Display of a rational as Rust's `{}` displays the `f64` of that value. -/
def fmtQ (q : ℚ) : String :=
  if q < 0 then "-" ++ fmtQnonneg (-q) else fmtQnonneg q

/-- Display of an `FVal` as Rust's `{}` displays the `f64`. -/
def fmtF : FVal → String
  | .finite q => fmtQ q
  | .nan => "NaN"
  | .inf => "inf"
  | .neginf => "-inf"

/-- Digits of a numeral read as a natural number. -/
def digitsToNat (l : List Char) : ℕ :=
  l.foldl (fun acc c => 10 * acc + (c.toNat - '0'.toNat)) 0

/-- The finite-number part of Rust's `f64::from_str` grammar:
`Digits '.'? Digits? Exp?` or `'.' Digits Exp?` with `Exp ::= (e|E) Sign? Digits`. -/
def parseDecimal (l : List Char) : Option ℚ :=
  let ds := l.takeWhile Char.isDigit
  let r1 := l.dropWhile Char.isDigit
  let fs :=
    match r1 with
    | '.' :: t => t.takeWhile Char.isDigit
    | _ => []
  let r2 :=
    match r1 with
    | '.' :: t => t.dropWhile Char.isDigit
    | _ => r1
  if ds = [] ∧ fs = [] then none
  else
    let mant : ℚ := (digitsToNat ds : ℚ) + (digitsToNat fs : ℚ) / 10 ^ fs.length
    match r2 with
    | [] => some mant
    | e :: t =>
      if e = 'e' ∨ e = 'E' then
        let esign : ℤ :=
          match t with
          | '+' :: _ => 1
          | '-' :: _ => -1
          | _ => 1
        let t2 :=
          match t with
          | '+' :: u => u
          | '-' :: u => u
          | u => u
        let eds := t2.takeWhile Char.isDigit
        if eds = [] ∨ t2.dropWhile Char.isDigit ≠ [] then none
        else some (mant * (10 : ℚ) ^ (esign * (digitsToNat eds : ℤ)))
      else none

/-- Rust `f64::from_str` (`"x".parse::<f64>()`): optional sign, then `inf`,
`infinity`, `nan` (case-insensitive) or a decimal numeral. -/
def parseF64 (l : List Char) : Option FVal :=
  let lower := l.map Char.toLower
  let neg :=
    match lower with
    | '-' :: _ => true
    | _ => false
  let rest :=
    match lower with
    | '+' :: t => t
    | '-' :: t => t
    | t => t
  if rest = "inf".data ∨ rest = "infinity".data then
    some (if neg then .neginf else .inf)
  else if rest = "nan".data then some .nan
  else (parseDecimal rest).map fun q => .finite (if neg then -q else q)

/-- Outcome of running `parser_rgb_str`: `ok` and `err` are the two `Result`
values; `panic` records that the call aborts (an `unwrap` of `None`). -/
inductive ParseResult where
  | ok (rgb : FVal × FVal × FVal)
  | err (msg : String)
  | panic
deriving DecidableEq

/-- Lines 4–9 of src/parser/rgb.rs: trim, lowercase, delete `" "`, `"rgb("`
and `")"`. -/
def stripRgbInput (s : List Char) : List Char :=
  removeAll ")".data (removeAll "rgb(".data (removeAll " ".data (lowerStr (trimStr s))))

/-- The message of `anyhow!("r must be between 0 and 255, got {}", r)`. -/
def rangeMsg (field : String) (v : FVal) : String :=
  field ++ " must be between 0 and 255, got " ++ fmtF v

/-- src/parser/rgb.rs, `parser_rgb_str` (lines 3–24).  `split(",")` always
yields at least one field; the second and third `next().unwrap()` panic when
the split is shorter, `parse::<f64>()?` returns the typed `ParseFloatError`
(`"invalid float literal"`), and each channel is then range-checked in order. -/
def parser_rgb_str (input : List Char) : ParseResult :=
  let s := stripRgbInput input
  match s.splitOn ',' with
  | [] => .panic
  | f1 :: rest1 =>
    match parseF64 f1 with
    | none => .err "invalid float literal"
    | some r =>
      match rest1 with
      | [] => .panic
      | f2 :: rest2 =>
        match parseF64 f2 with
        | none => .err "invalid float literal"
        | some g =>
          match rest2 with
          | [] => .panic
          | f3 :: _ =>
            match parseF64 f3 with
            | none => .err "invalid float literal"
            | some b =>
              if FVal.lt r (.finite 0) || FVal.lt (.finite 255) r then
                .err (rangeMsg "r" r)
              else if FVal.lt g (.finite 0) || FVal.lt (.finite 255) g then
                .err (rangeMsg "g" g)
              else if FVal.lt b (.finite 0) || FVal.lt (.finite 255) b then
                .err (rangeMsg "b" b)
              else .ok (r, g, b)

/-- Truncation toward zero, as Rust `f64::trunc` used by the float `%`. -/
def truncQ (q : ℚ) : ℤ :=
  if 0 ≤ q then ⌊q⌋ else ⌈q⌉

/-- Rust `%` on `f64` (remainder with the sign of the dividend):
`a - b * trunc(a / b)`. -/
def fmodQ (a b : ℚ) : ℚ :=
  a - b * (truncQ (a / b) : ℚ)

/-- Modelled from the spec: `normalize_color` (crate `utils`, not among the
provided sources) — "channel normalization (0–255 → 0–1)", dividing each
channel by 255. -/
def normalize_color (color : ℚ × ℚ × ℚ) : ℚ × ℚ × ℚ :=
  (color.1 / 255, color.2.1 / 255, color.2.2 / 255)

/-- src/conversion/hsl.rs, `rgb2hsl` (lines 29–60).  The source's final match
arm is `panic!()`; it is unreachable because `max` equals one of the three
channels, so the third arm's test `x == b` always succeeds when the first two
fail and is modelled as the final `else`. -/
def rgb2hsl (color : ℚ × ℚ × ℚ) : ℚ × ℚ × ℚ :=
  let n := normalize_color color
  let r := n.1
  let g := n.2.1
  let b := n.2.2
  let mx := max (max r g) b
  let mn := min (min r g) b
  let l := (mx + mn) / 2
  let delta := mx - mn
  if delta ≠ 0 then
    let h0 :=
      if mx = r then 60 * fmodQ ((g - b) / delta) 6
      else if mx = g then 60 * ((b - r) / delta + 2)
      else 60 * ((r - g) / delta + 4)
    let h := if h0 < 0 then h0 + 360 else h0
    let s := delta / (1 - |2 * l - 1|)
    (h, s, l)
  else (0, 0, l)

/-- src/conversion/hsl.rs, `hsl2rgb` (lines 4–26): `some` is the value the six
sector arms return, `none` the `panic!()` arm of the match on `h`. -/
def hsl2rgb (color : ℚ × ℚ × ℚ) : Option (ℚ × ℚ × ℚ) :=
  let h := color.1
  let s := color.2.1
  let l := color.2.2
  let c := (1 - |2 * l - 1|) * s
  let x := c * (1 - |fmodQ (h / 60) 2 - 1|)
  let m := l - c / 2
  let rgb :=
    if 0 ≤ h ∧ h < 60 then some (c, x, (0 : ℚ))
    else if 60 ≤ h ∧ h < 120 then some (x, c, 0)
    else if 120 ≤ h ∧ h < 180 then some (0, c, x)
    else if 180 ≤ h ∧ h < 240 then some (0, x, c)
    else if 240 ≤ h ∧ h < 300 then some (x, 0, c)
    else if 300 ≤ h ∧ h < 360 then some (c, 0, x)
    else none
  rgb.map fun t => ((t.1 + m) * 255, (t.2.1 + m) * 255, (t.2.2 + m) * 255)

/-- The hue guards of `hsl2rgb`'s match (src/conversion/hsl.rs lines 13–21)
over IEEE-style values: `some i` selects the arm of line 14+i, `none` the
`panic!()` arm of line 20.  Every guard compares with `>=` and `<`, both of
which are false on NaN. -/
def hsl2rgb_sector (h : FVal) : Option (Fin 6) :=
  if FVal.ge h (.finite 0) && FVal.lt h (.finite 60) then some 0
  else if FVal.ge h (.finite 60) && FVal.lt h (.finite 120) then some 1
  else if FVal.ge h (.finite 120) && FVal.lt h (.finite 180) then some 2
  else if FVal.ge h (.finite 180) && FVal.lt h (.finite 240) then some 3
  else if FVal.ge h (.finite 240) && FVal.lt h (.finite 300) then some 4
  else if FVal.ge h (.finite 300) && FVal.lt h (.finite 360) then some 5
  else none

/-- Rust `f64::round`: round half away from zero, to an integer. -/
def roundHalfAway (x : ℚ) : ℤ :=
  if 0 ≤ x then ⌊x + 1 / 2⌋ else ⌈x - 1 / 2⌉

/-- Modelled from the spec: `round` (crate `utils`, not among the provided
sources) — "generic rounding-to-N-decimals": scale by `10^n`, round half away
from zero, unscale. -/
def roundQ (x : ℚ) (n : ℕ) : ℚ :=
  (roundHalfAway (x * 10 ^ n) : ℚ) / 10 ^ n

/-- Rust `value.round() as u8`: round, then saturate into `0..=255`. -/
def u8OfF64 (q : ℚ) : ℕ :=
  (max 0 (min 255 (roundHalfAway q))).toNat

/-- The canonical color entity: `rgb: (f64, f64, f64)` and `alpha: f64`. -/
structure Color where
  rgb : ℚ × ℚ × ℚ
  alpha : ℚ
deriving DecidableEq

/-- Clamp into `[lo, hi]`. -/
def clampQ (lo hi x : ℚ) : ℚ :=
  max lo (min hi x)

/-- Modelled from the spec: `Color::new` (not among the provided sources) —
"channels are always clamped/validated at construction time; no Color instance
may hold an out-of-range channel": channels clamped to `[0,255]`, alpha to
`[0,1]`. -/
def Color.new (r g b a : ℚ) : Color :=
  ⟨(clampQ 0 255 r, clampQ 0 255 g, clampQ 0 255 b), clampQ 0 1 a⟩

/-- A hexadecimal digit, lowercase. -/
def hexDigit (n : ℕ) : Char :=
  if n < 10 then Char.ofNat ('0'.toNat + n) else Char.ofNat ('a'.toNat + (n - 10))

/-- A byte as two lowercase hexadecimal digits. -/
def hex2 (n : ℕ) : List Char :=
  [hexDigit (n / 16 % 16), hexDigit (n % 16)]

/-- Modelled from the spec: `rgb2hex` (conversion module, not among the
provided sources) — the full-length lowercase `#rrggbb` of the rounded
channels. -/
def rgb2hex (color : ℚ × ℚ × ℚ) : String :=
  String.mk ('#' :: (hex2 (u8OfF64 color.1) ++ hex2 (u8OfF64 color.2.1) ++ hex2 (u8OfF64 color.2.2)))

/-- Modelled from the spec: `rgba2hex` (conversion module, not among the
provided sources) — as `rgb2hex` plus alpha scaled to 0–255 and rounded, as two
more hex digits (the documented example (0,0,0,0.2) ↦ "#0003" fixes
`0.2 * 255 → 51 = 0x33`). -/
def rgba2hex (color : ℚ × ℚ × ℚ × ℚ) : String :=
  String.mk ('#' :: (hex2 (u8OfF64 color.1) ++ hex2 (u8OfF64 color.2.1) ++
    hex2 (u8OfF64 color.2.2.1) ++ hex2 (u8OfF64 (color.2.2.2 * 255))))

/-- Modelled from the spec: `simplify_hex` (crate `utils`, not among the
provided sources) — "a `#rrggbb(aa)` hex is rewritten to the 3/4-digit short
form `#rgb(a)` only when every channel's two hex digits are identical". -/
def simplify_hex (s : String) : String :=
  match s.data with
  | ['#', r1, r2, g1, g2, b1, b2] =>
    if r1 = r2 ∧ g1 = g2 ∧ b1 = b2 then String.mk ['#', r1, g1, b1] else s
  | ['#', r1, r2, g1, g2, b1, b2, a1, a2] =>
    if r1 = r2 ∧ g1 = g2 ∧ b1 = b2 ∧ a1 = a2 then String.mk ['#', r1, g1, b1, a1] else s
  | _ => s

/-- src/color/stringify.rs, `Color::hex` (lines 34–42). -/
def Color.hex (c : Color) : String :=
  simplify_hex (if c.alpha = 1 then rgb2hex c.rgb
    else rgba2hex (c.rgb.1, c.rgb.2.1, c.rgb.2.2, c.alpha))

/-- src/color/stringify.rs, `Color::rgba` (lines 70–76): channels rounded and
cast to `u8`, alpha shown by the accessor `self.alpha()` (Rust `{}` display). -/
def Color.rgba (c : Color) : String :=
  "rgba(" ++ toString (u8OfF64 c.rgb.1) ++ ", " ++ toString (u8OfF64 c.rgb.2.1) ++ ", " ++
    toString (u8OfF64 c.rgb.2.2) ++ ", " ++ fmtQ c.alpha ++ ")"

/-- The formatting stage of `Color::hsl` (src/color/stringify.rs line 89):
hue rounded to 0 decimals, percentages to 0 decimals. -/
def hsl_string (h s l : ℚ) : String :=
  "hsl(" ++ fmtQ (roundQ h 0) ++ ", " ++ fmtQ (roundQ (s * 100) 0) ++ "%, " ++
    fmtQ (roundQ (l * 100) 0) ++ "%)"

/-- src/color/stringify.rs, `Color::hsl` (lines 87–90). -/
def Color.hsl (c : Color) : String :=
  let t := rgb2hsl c.rgb
  hsl_string t.1 t.2.1 t.2.2

/-- The formatting stage of `Color::hsv` (src/color/stringify.rs line 123). -/
def hsv_string (h s v : ℚ) : String :=
  "hsv(" ++ fmtQ (roundQ h 0) ++ ", " ++ fmtQ (roundQ (s * 100) 0) ++ "%, " ++
    fmtQ (roundQ (v * 100) 0) ++ "%)"

/-- The formatting stage of `Color::hsi` (src/color/stringify.rs line 137):
hue to 0 decimals, percentages to 2 decimals. -/
def hsi_string (h s i : ℚ) : String :=
  "hsi(" ++ fmtQ (roundQ h 0) ++ ", " ++ fmtQ (roundQ (s * 100) 2) ++ "%, " ++
    fmtQ (roundQ (i * 100) 2) ++ "%)"

/-- The formatting stage of `Color::hwb` (src/color/stringify.rs line 151). -/
def hwb_string (h w b : ℚ) : String :=
  "hwb(" ++ fmtQ (roundQ h 0) ++ ", " ++ fmtQ (roundQ (w * 100) 0) ++ "%, " ++
    fmtQ (roundQ (b * 100) 0) ++ "%)"

/-- The formatting stage of `Color::cmyk` (src/color/stringify.rs lines 165–171). -/
def cmyk_string (c m y k : ℚ) : String :=
  "cmyk(" ++ fmtQ (roundQ (c * 100) 0) ++ "%, " ++ fmtQ (roundQ (m * 100) 0) ++ "%, " ++
    fmtQ (roundQ (y * 100) 0) ++ "%, " ++ fmtQ (roundQ (k * 100) 0) ++ "%)"

/-- The formatting stage of `Color::xyz` (src/color/stringify.rs line 185):
raw values rounded to 6 decimals. -/
def xyz_string (x y z : ℚ) : String :=
  "xyz(" ++ fmtQ (roundQ x 6) ++ ", " ++ fmtQ (roundQ y 6) ++ ", " ++ fmtQ (roundQ z 6) ++ ")"

/-- The formatting stage of `Color::yuv` (src/color/stringify.rs line 199):
raw values rounded to 4 decimals. -/
def yuv_string (y u v : ℚ) : String :=
  "yuv(" ++ fmtQ (roundQ y 4) ++ ", " ++ fmtQ (roundQ u 4) ++ ", " ++ fmtQ (roundQ v 4) ++ ")"

/-- The formatting stage of `Color::lab` (src/color/stringify.rs line 213):
raw values rounded to 2 decimals. -/
def lab_string (l a b : ℚ) : String :=
  "lab(" ++ fmtQ (roundQ l 2) ++ ", " ++ fmtQ (roundQ a 2) ++ ", " ++ fmtQ (roundQ b 2) ++ ")"

/-- The formatting stage of `Color::ycbcr` (src/color/stringify.rs line 227):
raw values rounded to 4 decimals. -/
def ycbcr_string (y cb cr : ℚ) : String :=
  "YCbCr(" ++ fmtQ (roundQ y 4) ++ ", " ++ fmtQ (roundQ cb 4) ++ ", " ++ fmtQ (roundQ cr 4) ++ ")"

/-- Modelled from the spec: the named-color table (crate `data`, an "external
lookup collaborator" keyed on full-length lowercase hex); only entries attested
by the sources' tests and doc examples are listed. -/
def colorNameTable : List (String × String) :=
  [("#ffffff", "white"), ("#008080", "teal"), ("#ff0000", "red")]

/-- Modelled from the spec: `name_of_hex` — "exact match only against the
canonical lowercase hex string". -/
def name_of_hex (hex : String) : Option String :=
  (colorNameTable.find? fun p => p.1 == hex).map fun p => p.2

/-- src/color/stringify.rs, `Color::name` (lines 249–259). -/
def Color.name (c : Color) : String :=
  if c.alpha = 1 then
    let hex := rgb2hex c.rgb
    match name_of_hex hex with
    | some n => n
    | none => hex
  else c.hex

/-- src/color_generator/average.rs, `Color::average` (lines 24–41). -/
def Color.average (colors : List Color) : Color :=
  if colors.isEmpty then Color.new 0 0 0 1
  else
    let acc := colors.foldl
      (fun (acc : ℚ × ℚ × ℚ × ℚ) (c : Color) =>
        (acc.1 + c.rgb.1, acc.2.1 + c.rgb.2.1, acc.2.2.1 + c.rgb.2.2, acc.2.2.2 + c.alpha))
      (0, 0, 0, 0)
    let n : ℚ := colors.length
    Color.new (acc.1 / n) (acc.2.1 / n) (acc.2.2.1 / n) (acc.2.2.2 / n)

/-- `q` is exactly representable with `n` decimal places. -/
def hasDecimals (q : ℚ) (n : ℕ) : Prop :=
  ∃ k : ℤ, q = (k : ℚ) / 10 ^ n

/-- "Every channel's two hex digits are identical" read off a digit list. -/
def hexPairsIdentical : List Char → Prop
  | [] => True
  | [_] => False
  | x :: y :: t => x = y ∧ hexPairsIdentical t

/-- The canonical ranges of the data model: channels in `[0,255]`, alpha in
`[0,1]`. -/
def Color.inCanonicalRange (c : Color) : Prop :=
  0 ≤ c.rgb.1 ∧ c.rgb.1 ≤ 255 ∧ 0 ≤ c.rgb.2.1 ∧ c.rgb.2.1 ≤ 255 ∧
    0 ≤ c.rgb.2.2 ∧ c.rgb.2.2 ≤ 255 ∧ 0 ≤ c.alpha ∧ c.alpha ≤ 1

/-- What claim C4 asserts of `rgb2hsl` at an input: achromatic inputs give
hue 0 and saturation 0; otherwise the hue is the 60-degree-sector formula of
the maximal channel with a `+360` wraparound when negative; the hue always
lies in `[0,360)`; the lightness is `(max+min)/2` of the normalized channels. -/
def rgb2hslSpec (r g b : ℚ) : Prop :=
  let n := normalize_color (r, g, b)
  let mx := max (max n.1 n.2.1) n.2.2
  let mn := min (min n.1 n.2.1) n.2.2
  let out := rgb2hsl (r, g, b)
  (mx = mn → out = (0, 0, (mx + mn) / 2)) ∧
  (mx ≠ mn →
    out.1 =
      (let h0 :=
        if mx = n.1 then 60 * fmodQ ((n.2.1 - n.2.2) / (mx - mn)) 6
        else if mx = n.2.1 then 60 * ((n.2.2 - n.1) / (mx - mn) + 2)
        else 60 * ((n.1 - n.2.1) / (mx - mn) + 4)
      if h0 < 0 then h0 + 360 else h0)) ∧
  (0 ≤ out.1 ∧ out.1 < 360) ∧ out.2.2 = (mx + mn) / 2

theorem parser_rgb_str_ok_iff (input : List Char) (v : FVal × FVal × FVal) :
    parser_rgb_str input = ParseResult.ok v ↔
      ∃ f1 f2 f3 rest, (stripRgbInput input).splitOn ',' = f1 :: f2 :: f3 :: rest ∧
        parseF64 f1 = some v.1 ∧ parseF64 f2 = some v.2.1 ∧ parseF64 f3 = some v.2.2 ∧
        (FVal.lt v.1 (FVal.finite 0) || FVal.lt (FVal.finite 255) v.1) = false ∧
        (FVal.lt v.2.1 (FVal.finite 0) || FVal.lt (FVal.finite 255) v.2.1) = false ∧
        (FVal.lt v.2.2 (FVal.finite 0) || FVal.lt (FVal.finite 255) v.2.2) = false := by
  constructor
  · intro hok
    simp only [parser_rgb_str] at hok
    split at hok
    · exact absurd hok (by simp)
    split at hok
    · exact absurd hok (by simp)
    split at hok
    · exact absurd hok (by simp)
    split at hok
    · exact absurd hok (by simp)
    split at hok
    · exact absurd hok (by simp)
    split at hok
    · exact absurd hok (by simp)
    split at hok
    · exact absurd hok (by simp)
    split at hok
    · exact absurd hok (by simp)
    split at hok
    · exact absurd hok (by simp)
    · rename_i rest2a f1 x1 r hr1 rest2b f2 x2 g hr2 rest2c f3 tl hsplit x3 b hr3 hcr hcg hcb
      simp only [ParseResult.ok.injEq] at hok
      subst hok
      exact ⟨f1, f2, f3, tl, hsplit, hr1, hr2, hr3, by simpa using hcr, by simpa using hcg,
        by simpa using hcb⟩
  · rintro ⟨f1, f2, f3, rest, hs, h1, h2, h3, hc1, hc2, hc3⟩
    simp only [parser_rgb_str, hs, h1, h2, h3, hc1, hc2, hc3]
    simp

/-- C1: the claim says `parser_rgb_str` always returns `Ok` or a typed `Err`
and never aborts, even when the comma split yields fewer than three fields.
The code violates it: on `"rgb(1, 2)"` the split has two fields and the third
`next().unwrap()` panics, aborting the process. -/
theorem C1_rgb_parser_aborts_on_short_split :
    parser_rgb_str ("rgb(1, 2)".data) = ParseResult.panic := by
  with_unfolding_all rfl

/-- C2 counterexample: `"rgb(255, 0, 0"` has a malformed wrapper (missing
closing parenthesis), yet the parser accepts it, contradicting the claim that
every malformed wrapper yields a syntax error. -/
theorem C2_counterexample_missing_paren_accepted :
    parser_rgb_str ("rgb(255, 0, 0".data) =
      ParseResult.ok (FVal.finite 255, FVal.finite 0, FVal.finite 0) := by
  with_unfolding_all rfl

/-- C2 (amended): the wrapper is never validated — the parser lowercases,
deletes spaces and the substrings `"rgb("` and `")"`, splits on commas, and
succeeds exactly when the split has at least three fields whose first three
parse as floats passing the range checks; extra fields are ignored, a wrong
leading token fails only as a numeric-parse error fused into the first field,
and an input with no (or a partial) wrapper is accepted. -/
theorem C2_wrapper_not_validated :
    (∀ input v, parser_rgb_str input = ParseResult.ok v ↔
      ∃ f1 f2 f3 rest, (stripRgbInput input).splitOn ',' = f1 :: f2 :: f3 :: rest ∧
        parseF64 f1 = some v.1 ∧ parseF64 f2 = some v.2.1 ∧ parseF64 f3 = some v.2.2 ∧
        (FVal.lt v.1 (FVal.finite 0) || FVal.lt (FVal.finite 255) v.1) = false ∧
        (FVal.lt v.2.1 (FVal.finite 0) || FVal.lt (FVal.finite 255) v.2.1) = false ∧
        (FVal.lt v.2.2 (FVal.finite 0) || FVal.lt (FVal.finite 255) v.2.2) = false) ∧
    parser_rgb_str ("255, 0, 0".data) =
      ParseResult.ok (FVal.finite 255, FVal.finite 0, FVal.finite 0) ∧
    parser_rgb_str ("rgb(1, 2, 3, 4)".data) =
      ParseResult.ok (FVal.finite 1, FVal.finite 2, FVal.finite 3) ∧
    parser_rgb_str ("rgb255, 0, 0)".data) = ParseResult.err "invalid float literal" :=
  ⟨parser_rgb_str_ok_iff, by with_unfolding_all rfl, by with_unfolding_all rfl,
    by with_unfolding_all rfl⟩

/-- C3 counterexample: `"rgb(nan, 0, 0)"` parses (Rust's `f64` parser accepts
`nan`), and NaN passes the range check `r < 0.0 || r > 255.0` because both
comparisons are false on NaN; so a channel outside `[0,255]` is returned
without a range error, contradicting the claim. -/
theorem C3_counterexample_nan_accepted :
    parser_rgb_str ("rgb(nan, 0, 0)".data) =
      ParseResult.ok (FVal.nan, FVal.finite 0, FVal.finite 0) := by
  with_unfolding_all rfl

/-- C3 (amended): every finite parsed channel outside `[0,255]` fails with a
range error naming the field and its bound — in particular `rgb(256,0,0)` and
`rgb(-1,0,0)` fail and `rgb(255,255,255)` succeeds — and every channel of a
returned triple is NaN or a finite value in `[0,255]` (NaN slips through the
`< 0 || > 255` check). -/
theorem C3_range_check_on_finite_channels :
    parser_rgb_str ("rgb(256, 0, 0)".data) =
      ParseResult.err "r must be between 0 and 255, got 256" ∧
    parser_rgb_str ("rgb(-1, 0, 0)".data) =
      ParseResult.err "r must be between 0 and 255, got -1" ∧
    parser_rgb_str ("rgb(255, 255, 255)".data) =
      ParseResult.ok (FVal.finite 255, FVal.finite 255, FVal.finite 255) ∧
    ∀ input r g b, parser_rgb_str input = ParseResult.ok (r, g, b) →
      (r = FVal.nan ∨ ∃ q, r = FVal.finite q ∧ 0 ≤ q ∧ q ≤ 255) ∧
      (g = FVal.nan ∨ ∃ q, g = FVal.finite q ∧ 0 ≤ q ∧ q ≤ 255) ∧
      (b = FVal.nan ∨ ∃ q, b = FVal.finite q ∧ 0 ≤ q ∧ q ≤ 255) := by
  refine ⟨by with_unfolding_all rfl, by with_unfolding_all rfl, by with_unfolding_all rfl, ?_⟩
  intro input r g b hok
  obtain ⟨f1, f2, f3, rest, -, -, -, -, hc1, hc2, hc3⟩ :=
    (parser_rgb_str_ok_iff input (r, g, b)).mp hok
  refine ⟨?_, ?_, ?_⟩
  · cases r with
    | finite q =>
      right
      simp only [FVal.lt, Bool.or_eq_false_iff, decide_eq_false_iff_not] at hc1
      exact ⟨q, rfl, not_lt.mp hc1.1, not_lt.mp hc1.2⟩
    | nan => exact Or.inl rfl
    | inf => simp [FVal.lt] at hc1
    | neginf => simp [FVal.lt] at hc1
  · cases g with
    | finite q =>
      right
      simp only [FVal.lt, Bool.or_eq_false_iff, decide_eq_false_iff_not] at hc2
      exact ⟨q, rfl, not_lt.mp hc2.1, not_lt.mp hc2.2⟩
    | nan => exact Or.inl rfl
    | inf => simp [FVal.lt] at hc2
    | neginf => simp [FVal.lt] at hc2
  · cases b with
    | finite q =>
      right
      simp only [FVal.lt, Bool.or_eq_false_iff, decide_eq_false_iff_not] at hc3
      exact ⟨q, rfl, not_lt.mp hc3.1, not_lt.mp hc3.2⟩
    | nan => exact Or.inl rfl
    | inf => simp [FVal.lt] at hc3
    | neginf => simp [FVal.lt] at hc3

theorem fmodQ_eq_self_of_small {t : ℚ} (h1 : -6 < t) (h2 : t < 6) : fmodQ t 6 = t := by
  unfold fmodQ truncQ
  have h6 : (0 : ℚ) < 6 := by norm_num
  by_cases h0 : 0 ≤ t / 6
  · rw [if_pos h0]
    have hf : ⌊t / 6⌋ = 0 := by
      rw [Int.floor_eq_zero_iff]
      exact Set.mem_Ico.mpr ⟨h0, by rw [div_lt_one h6]; exact h2⟩
    rw [hf]
    push_cast
    ring
  · rw [if_neg h0]
    have hc : ⌈t / 6⌉ = 0 := by
      rw [Int.ceil_eq_zero_iff]
      refine Set.mem_Ioc.mpr ⟨?_, le_of_lt (not_le.mp h0)⟩
      rw [neg_lt, ← neg_div, div_lt_one h6]
      linarith
    rw [hc]
    push_cast
    ring

theorem sector_ratio_bounds {p q mn mx : ℚ} (hp1 : mn ≤ p) (hp2 : p ≤ mx)
    (hq1 : mn ≤ q) (hq2 : q ≤ mx) (h : mn < mx) :
    -1 ≤ (p - q) / (mx - mn) ∧ (p - q) / (mx - mn) ≤ 1 := by
  have hd : 0 < mx - mn := sub_pos.mpr h
  constructor
  · rw [le_div_iff hd]
    linarith
  · rw [div_le_one hd]
    linarith

theorem hue_wrap_bounds {h0 : ℚ} (h : -60 ≤ h0 ∧ h0 < 360) :
    0 ≤ (if h0 < 0 then h0 + 360 else h0) ∧ (if h0 < 0 then h0 + 360 else h0) < 360 := by
  by_cases hc : h0 < 0
  · rw [if_pos hc]
    constructor <;> linarith [h.1, h.2]
  · rw [if_neg hc]
    exact ⟨not_lt.mp hc, h.2⟩

/-- C4: for every RGB input with channels in `[0,255]`, `rgb2hsl` returns hue 0
and saturation 0 when the maximal and minimal normalized channels coincide, and
otherwise the 60-degree-sector hue of the maximal channel with a `+360`
wraparound when negative, so the hue lies in `[0,360)`; the lightness is
`(max+min)/2` of the normalized channels. -/
theorem C4_rgb2hsl_hue_lightness (r g b : ℚ)
    (hr0 : 0 ≤ r) (hr1 : r ≤ 255) (hg0 : 0 ≤ g) (hg1 : g ≤ 255)
    (hb0 : 0 ≤ b) (hb1 : b ≤ 255) :
    rgb2hslSpec r g b := by
  simp only [rgb2hslSpec, rgb2hsl, normalize_color]
  set nr := r / 255 with hnr
  set ng := g / 255 with hng
  set nb := b / 255 with hnb
  set mx := max (max nr ng) nb with hmx
  set mn := min (min nr ng) nb with hmn
  have hnr_le : nr ≤ mx := le_trans (le_max_left nr ng) (le_max_left _ nb)
  have hng_le : ng ≤ mx := le_trans (le_max_right nr ng) (le_max_left _ nb)
  have hnb_le : nb ≤ mx := le_max_right _ nb
  have hmn_nr : mn ≤ nr := le_trans (min_le_left _ nb) (min_le_left nr ng)
  have hmn_ng : mn ≤ ng := le_trans (min_le_left _ nb) (min_le_right nr ng)
  have hmn_nb : mn ≤ nb := min_le_right _ nb
  have hmnmx : mn ≤ mx := le_trans hmn_nr hnr_le
  by_cases heq : mx = mn
  · have hd : ¬(mx - mn ≠ 0) := by simp [heq]
    rw [if_neg hd]
    dsimp only
    exact ⟨fun _ => rfl, fun hne => absurd heq hne, ⟨le_refl 0, by norm_num⟩, rfl⟩
  · have hlt : mn < mx := hmnmx.lt_of_ne fun h => heq h.symm
    have hd : mx - mn ≠ 0 := sub_ne_zero.mpr heq
    rw [if_pos hd]
    dsimp only
    refine ⟨fun hmxmn => absurd hmxmn heq, fun _ => rfl, hue_wrap_bounds ?_, rfl⟩
    by_cases hA : mx = nr
    · rw [if_pos hA]
      obtain ⟨l1, l2⟩ := sector_ratio_bounds hmn_ng hng_le hmn_nb hnb_le hlt
      rw [fmodQ_eq_self_of_small (by linarith) (by linarith)]
      constructor <;> linarith
    · rw [if_neg hA]
      by_cases hB : mx = ng
      · rw [if_pos hB]
        obtain ⟨l1, l2⟩ := sector_ratio_bounds hmn_nb hnb_le hmn_nr hnr_le hlt
        constructor <;> linarith
      · rw [if_neg hB]
        obtain ⟨l1, l2⟩ := sector_ratio_bounds hmn_nr hnr_le hmn_ng hng_le hlt
        constructor <;> linarith

/-- C4 witness: the theorem applied to pure red `(255, 0, 0)`. -/
theorem C4_rgb2hsl_hue_lightness_witness :
    ((0 : ℚ) ≤ 255 ∧ (255 : ℚ) ≤ 255 ∧ (0 : ℚ) ≤ 0) ∧ rgb2hslSpec 255 0 0 :=
  ⟨⟨by norm_num, by norm_num, le_refl 0⟩,
    C4_rgb2hsl_hue_lightness 255 0 0 (by norm_num) (by norm_num) (by norm_num) (by norm_num)
      (by norm_num) (by norm_num)⟩

/-- C5: for hue in `[0,360)` (with saturation and lightness in `[0,1]`) the
six-sector match of `hsl2rgb` is exhaustive and the panic arm unreachable,
while any hue outside `[0,360)` — including NaN, on which every sector guard
is false — reaches the panic arm instead of being wrapped around. -/
theorem C5_hsl2rgb_sector_totality (h s l : ℚ)
    (hs0 : 0 ≤ s) (hs1 : s ≤ 1) (hl0 : 0 ≤ l) (hl1 : l ≤ 1) :
    (0 ≤ h ∧ h < 360 → (hsl2rgb (h, s, l)).isSome = true) ∧
    (h < 0 ∨ 360 ≤ h → hsl2rgb (h, s, l) = none) ∧
    hsl2rgb_sector FVal.nan = none := by
  refine ⟨?_, ?_, by with_unfolding_all rfl⟩
  · rintro ⟨hh0, hh1⟩
    simp only [hsl2rgb]
    split_ifs with g1 g2 g3 g4 g5 g6
    · simp
    · simp
    · simp
    · simp
    · simp
    · simp
    · exfalso
      push_neg at g1 g2 g3 g4 g5 g6
      have t1 := g1 hh0
      have t2 := g2 t1
      have t3 := g3 t2
      have t4 := g4 t3
      have t5 := g5 t4
      have t6 := g6 t5
      linarith
  · intro hcase
    simp only [hsl2rgb]
    split_ifs with g1 g2 g3 g4 g5 g6
    · exfalso; rcases hcase with hc | hc <;> linarith [g1.1, g1.2]
    · exfalso; rcases hcase with hc | hc <;> linarith [g2.1, g2.2]
    · exfalso; rcases hcase with hc | hc <;> linarith [g3.1, g3.2]
    · exfalso; rcases hcase with hc | hc <;> linarith [g4.1, g4.2]
    · exfalso; rcases hcase with hc | hc <;> linarith [g5.1, g5.2]
    · exfalso; rcases hcase with hc | hc <;> linarith [g6.1, g6.2]
    · rfl

/-- C5 witness: the theorem applied at hue 0 (in range) with `s = l = 0`. -/
theorem C5_hsl2rgb_sector_totality_witness :
    ((0 : ℚ) ≤ 0 ∧ (0 : ℚ) ≤ 1) ∧
    ((0 ≤ (0 : ℚ) ∧ (0 : ℚ) < 360 → (hsl2rgb (0, 0, 0)).isSome = true) ∧
     ((0 : ℚ) < 0 ∨ 360 ≤ (0 : ℚ) → hsl2rgb (0, 0, 0) = none) ∧
     hsl2rgb_sector FVal.nan = none) :=
  ⟨⟨le_refl 0, by norm_num⟩,
    C5_hsl2rgb_sector_totality 0 0 0 (le_refl 0) (by norm_num) (le_refl 0) (by norm_num)⟩

theorem average_foldl_eq (cs : List Color) (a0 b0 c0 d0 : ℚ) :
    cs.foldl
      (fun (acc : ℚ × ℚ × ℚ × ℚ) (c : Color) =>
        (acc.1 + c.rgb.1, acc.2.1 + c.rgb.2.1, acc.2.2.1 + c.rgb.2.2, acc.2.2.2 + c.alpha))
      (a0, b0, c0, d0) =
      (a0 + (cs.map fun c => c.rgb.1).sum, b0 + (cs.map fun c => c.rgb.2.1).sum,
       c0 + (cs.map fun c => c.rgb.2.2).sum, d0 + (cs.map fun c => c.alpha).sum) := by
  induction cs generalizing a0 b0 c0 d0 with
  | nil => simp
  | cons hd tl ih =>
    simp only [List.foldl_cons, List.map_cons, List.sum_cons, ih, Prod.mk.injEq]
    refine ⟨by ring, by ring, by ring, by ring⟩

theorem color_mean_bounds (cs : List Color) (f : Color → ℚ) (lo hi : ℚ) (hne : cs ≠ [])
    (hb : ∀ c ∈ cs, lo ≤ f c ∧ f c ≤ hi) :
    lo ≤ (cs.map f).sum / (cs.length : ℚ) ∧ (cs.map f).sum / (cs.length : ℚ) ≤ hi := by
  have hlen : 0 < (cs.length : ℚ) := by
    have hpos : 0 < cs.length := List.length_pos.mpr hne
    exact_mod_cast hpos
  have h1 : ∀ x ∈ cs.map f, lo ≤ x := by
    intro x hx
    obtain ⟨c, hc, rfl⟩ := List.mem_map.mp hx
    exact (hb c hc).1
  have h2 : ∀ x ∈ cs.map f, x ≤ hi := by
    intro x hx
    obtain ⟨c, hc, rfl⟩ := List.mem_map.mp hx
    exact (hb c hc).2
  have hsum_le : (cs.map f).sum ≤ (cs.map f).length • hi := List.sum_le_card_nsmul _ hi h2
  have hsum_ge : (cs.map f).length • lo ≤ (cs.map f).sum := List.card_nsmul_le_sum _ lo h1
  rw [List.length_map, nsmul_eq_mul] at hsum_le hsum_ge
  constructor
  · rw [le_div_iff hlen]
    linarith
  · rw [div_le_iff hlen]
    linarith

theorem clampQ_eq_self {lo hi x : ℚ} (h1 : lo ≤ x) (h2 : x ≤ hi) : clampQ lo hi x = x := by
  unfold clampQ
  rw [min_eq_right h2, max_eq_right h1]

/-- C6: `Color::average` of the empty slice is opaque black `(0,0,0,1)` (whose
rgba string is `"rgba(0, 0, 0, 1)"`), of a non-empty slice the `Color`
constructed from the componentwise arithmetic means of R, G, B and alpha, and
averaging `#ff6600 = (255,102,0)` with `#0000ff = (0,0,255)` yields hex
`"#803380"`. -/
theorem C6_average_componentwise_mean (cs : List Color) (hne : cs ≠ []) :
    Color.average [] = Color.new 0 0 0 1 ∧
    (Color.average []).rgba = "rgba(0, 0, 0, 1)" ∧
    Color.average cs =
      Color.new ((cs.map fun c => c.rgb.1).sum / (cs.length : ℚ))
        ((cs.map fun c => c.rgb.2.1).sum / (cs.length : ℚ))
        ((cs.map fun c => c.rgb.2.2).sum / (cs.length : ℚ))
        ((cs.map fun c => c.alpha).sum / (cs.length : ℚ)) ∧
    (Color.average [⟨(255, 102, 0), 1⟩, ⟨(0, 0, 255), 1⟩]).hex = "#803380" := by
  refine ⟨by with_unfolding_all rfl, by with_unfolding_all rfl, ?_, by with_unfolding_all rfl⟩
  rcases cs with _ | ⟨c0, cs'⟩
  · exact absurd rfl hne
  · unfold Color.average
    rw [if_neg (by simp), average_foldl_eq]
    simp

/-- C6 witness: the theorem applied to the claim's two-element slice. -/
theorem C6_average_componentwise_mean_witness :
    ([(⟨(255, 102, 0), 1⟩ : Color), ⟨(0, 0, 255), 1⟩] ≠ []) ∧
    Color.average [(⟨(255, 102, 0), 1⟩ : Color), ⟨(0, 0, 255), 1⟩] =
      Color.new (255 / 2) 51 (255 / 2) 1 ∧
    (Color.average [(⟨(255, 102, 0), 1⟩ : Color), ⟨(0, 0, 255), 1⟩]).hex = "#803380" := by
  have hmain := C6_average_componentwise_mean
    [(⟨(255, 102, 0), 1⟩ : Color), ⟨(0, 0, 255), 1⟩] (List.cons_ne_nil _ _)
  refine ⟨List.cons_ne_nil _ _, ?_, hmain.2.2.2⟩
  have h3 := hmain.2.2.1
  rw [h3]
  norm_num

/-- C10: for a slice of colors whose channels lie in `[0,255]` and alphas in
`[0,1]`, the average also has channels in `[0,255]` and alpha in `[0,1]`:
moreover for a non-empty slice the constructor's clamping is a no-op — the
average is literally the tuple of componentwise means. -/
theorem C10_average_stays_in_range (cs : List Color)
    (hcs : ∀ c ∈ cs, c.inCanonicalRange) :
    (Color.average cs).inCanonicalRange ∧
    (cs ≠ [] →
      Color.average cs =
        ⟨((cs.map fun c => c.rgb.1).sum / (cs.length : ℚ),
          (cs.map fun c => c.rgb.2.1).sum / (cs.length : ℚ),
          (cs.map fun c => c.rgb.2.2).sum / (cs.length : ℚ)),
          (cs.map fun c => c.alpha).sum / (cs.length : ℚ)⟩) := by
  rcases cs with _ | ⟨c0, cs'⟩
  · refine ⟨?_, fun hne' => absurd rfl hne'⟩
    unfold Color.average Color.new clampQ Color.inCanonicalRange
    norm_num
  · have hne2 : (c0 :: cs') ≠ [] := List.cons_ne_nil _ _
    have h1 := color_mean_bounds (c0 :: cs') (fun c => c.rgb.1) 0 255 hne2
      (fun c hc => ⟨(hcs c hc).1, (hcs c hc).2.1⟩)
    have h2 := color_mean_bounds (c0 :: cs') (fun c => c.rgb.2.1) 0 255 hne2
      (fun c hc => ⟨(hcs c hc).2.2.1, (hcs c hc).2.2.2.1⟩)
    have h3 := color_mean_bounds (c0 :: cs') (fun c => c.rgb.2.2) 0 255 hne2
      (fun c hc => ⟨(hcs c hc).2.2.2.2.1, (hcs c hc).2.2.2.2.2.1⟩)
    have h4 := color_mean_bounds (c0 :: cs') (fun c => c.alpha) 0 1 hne2
      (fun c hc => ⟨(hcs c hc).2.2.2.2.2.2.1, (hcs c hc).2.2.2.2.2.2.2⟩)
    have heq : Color.average (c0 :: cs') =
        ⟨(((c0 :: cs').map fun c => c.rgb.1).sum / (((c0 :: cs').length : ℚ)),
          ((c0 :: cs').map fun c => c.rgb.2.1).sum / (((c0 :: cs').length : ℚ)),
          ((c0 :: cs').map fun c => c.rgb.2.2).sum / (((c0 :: cs').length : ℚ))),
          ((c0 :: cs').map fun c => c.alpha).sum / (((c0 :: cs').length : ℚ))⟩ := by
      unfold Color.average
      rw [if_neg (by simp), average_foldl_eq]
      unfold Color.new
      simp only [zero_add]
      rw [clampQ_eq_self h1.1 h1.2, clampQ_eq_self h2.1 h2.2, clampQ_eq_self h3.1 h3.2,
        clampQ_eq_self h4.1 h4.2]
    refine ⟨?_, fun _ => heq⟩
    rw [heq]
    exact ⟨h1.1, h1.2, h2.1, h2.2, h3.1, h3.2, h4.1, h4.2⟩

/-- C10 witness: the theorem applied to the two-element slice of C6's example. -/
theorem C10_average_stays_in_range_witness :
    (∀ c ∈ [(⟨(255, 102, 0), 1⟩ : Color), ⟨(0, 0, 255), 1⟩], c.inCanonicalRange) ∧
    (Color.average [(⟨(255, 102, 0), 1⟩ : Color), ⟨(0, 0, 255), 1⟩]).inCanonicalRange := by
  have hb : ∀ c ∈ [(⟨(255, 102, 0), 1⟩ : Color), ⟨(0, 0, 255), 1⟩], c.inCanonicalRange := by
    intro c hc
    simp only [List.mem_cons, List.not_mem_nil, or_false] at hc
    rcases hc with rfl | rfl
    · unfold Color.inCanonicalRange
      norm_num
    · unfold Color.inCanonicalRange
      norm_num
  exact ⟨hb, (C10_average_stays_in_range _ hb).1⟩

theorem roundQ_hasDecimals (x : ℚ) (n : ℕ) : hasDecimals (roundQ x n) n :=
  ⟨roundHalfAway (x * 10 ^ n), rfl⟩

/-- C7 counterexample: the LAB stringifier rounds to 2 decimal places, not the
4–6 the claim asserts: at raw value `1/3` it prints `0.33`, while rounding to
4, 5 or 6 decimals would print `0.3333`, `0.33333`, `0.333333`. -/
theorem C7_counterexample_lab_rounds_to_two_decimals :
    lab_string (1 / 3) 0 0 = "lab(0.33, 0, 0)" ∧
    fmtQ (roundQ (1 / 3) 4) = "0.3333" ∧
    fmtQ (roundQ (1 / 3) 5) = "0.33333" ∧
    fmtQ (roundQ (1 / 3) 6) = "0.333333" :=
  ⟨by with_unfolding_all rfl, by with_unfolding_all rfl, by with_unfolding_all rfl,
    by with_unfolding_all rfl⟩

/-- C7 (amended): the stringifiers round hue to 0 decimals, HSL/HSV/HWB/CMYK
percentages to 0 decimals, HSI percentages to 2 decimals, XYZ raw values to 6
decimals and YUV/YCbCr raw values to 4 decimals — but LAB raw values to 2
decimals (not 4–6).  Each printed value is exactly representable with the
stated number of decimal places. -/
theorem C7_stringify_rounding_amended :
    (∀ h s l : ℚ, hsl_string h s l =
        "hsl(" ++ fmtQ (roundQ h 0) ++ ", " ++ fmtQ (roundQ (s * 100) 0) ++ "%, " ++
          fmtQ (roundQ (l * 100) 0) ++ "%)" ∧
        hasDecimals (roundQ h 0) 0 ∧ hasDecimals (roundQ (s * 100) 0) 0 ∧
        hasDecimals (roundQ (l * 100) 0) 0) ∧
    (∀ h s v : ℚ, hsv_string h s v =
        "hsv(" ++ fmtQ (roundQ h 0) ++ ", " ++ fmtQ (roundQ (s * 100) 0) ++ "%, " ++
          fmtQ (roundQ (v * 100) 0) ++ "%)" ∧
        hasDecimals (roundQ h 0) 0 ∧ hasDecimals (roundQ (s * 100) 0) 0 ∧
        hasDecimals (roundQ (v * 100) 0) 0) ∧
    (∀ h s i : ℚ, hsi_string h s i =
        "hsi(" ++ fmtQ (roundQ h 0) ++ ", " ++ fmtQ (roundQ (s * 100) 2) ++ "%, " ++
          fmtQ (roundQ (i * 100) 2) ++ "%)" ∧
        hasDecimals (roundQ h 0) 0 ∧ hasDecimals (roundQ (s * 100) 2) 2 ∧
        hasDecimals (roundQ (i * 100) 2) 2) ∧
    (∀ h w b : ℚ, hwb_string h w b =
        "hwb(" ++ fmtQ (roundQ h 0) ++ ", " ++ fmtQ (roundQ (w * 100) 0) ++ "%, " ++
          fmtQ (roundQ (b * 100) 0) ++ "%)" ∧
        hasDecimals (roundQ h 0) 0 ∧ hasDecimals (roundQ (w * 100) 0) 0 ∧
        hasDecimals (roundQ (b * 100) 0) 0) ∧
    (∀ c m y k : ℚ, cmyk_string c m y k =
        "cmyk(" ++ fmtQ (roundQ (c * 100) 0) ++ "%, " ++ fmtQ (roundQ (m * 100) 0) ++ "%, " ++
          fmtQ (roundQ (y * 100) 0) ++ "%, " ++ fmtQ (roundQ (k * 100) 0) ++ "%)" ∧
        hasDecimals (roundQ (c * 100) 0) 0 ∧ hasDecimals (roundQ (m * 100) 0) 0 ∧
        hasDecimals (roundQ (y * 100) 0) 0 ∧ hasDecimals (roundQ (k * 100) 0) 0) ∧
    (∀ x y z : ℚ, xyz_string x y z =
        "xyz(" ++ fmtQ (roundQ x 6) ++ ", " ++ fmtQ (roundQ y 6) ++ ", " ++
          fmtQ (roundQ z 6) ++ ")" ∧
        hasDecimals (roundQ x 6) 6 ∧ hasDecimals (roundQ y 6) 6 ∧ hasDecimals (roundQ z 6) 6) ∧
    (∀ y u v : ℚ, yuv_string y u v =
        "yuv(" ++ fmtQ (roundQ y 4) ++ ", " ++ fmtQ (roundQ u 4) ++ ", " ++
          fmtQ (roundQ v 4) ++ ")" ∧
        hasDecimals (roundQ y 4) 4 ∧ hasDecimals (roundQ u 4) 4 ∧ hasDecimals (roundQ v 4) 4) ∧
    (∀ l a b : ℚ, lab_string l a b =
        "lab(" ++ fmtQ (roundQ l 2) ++ ", " ++ fmtQ (roundQ a 2) ++ ", " ++
          fmtQ (roundQ b 2) ++ ")" ∧
        hasDecimals (roundQ l 2) 2 ∧ hasDecimals (roundQ a 2) 2 ∧ hasDecimals (roundQ b 2) 2) ∧
    (∀ y cb cr : ℚ, ycbcr_string y cb cr =
        "YCbCr(" ++ fmtQ (roundQ y 4) ++ ", " ++ fmtQ (roundQ cb 4) ++ ", " ++
          fmtQ (roundQ cr 4) ++ ")" ∧
        hasDecimals (roundQ y 4) 4 ∧ hasDecimals (roundQ cb 4) 4 ∧
        hasDecimals (roundQ cr 4) 4) :=
  ⟨fun h s l => ⟨rfl, roundQ_hasDecimals h 0, roundQ_hasDecimals _ 0, roundQ_hasDecimals _ 0⟩,
   fun h s v => ⟨rfl, roundQ_hasDecimals h 0, roundQ_hasDecimals _ 0, roundQ_hasDecimals _ 0⟩,
   fun h s i => ⟨rfl, roundQ_hasDecimals h 0, roundQ_hasDecimals _ 2, roundQ_hasDecimals _ 2⟩,
   fun h w b => ⟨rfl, roundQ_hasDecimals h 0, roundQ_hasDecimals _ 0, roundQ_hasDecimals _ 0⟩,
   fun c m y k => ⟨rfl, roundQ_hasDecimals _ 0, roundQ_hasDecimals _ 0, roundQ_hasDecimals _ 0,
     roundQ_hasDecimals _ 0⟩,
   fun x y z => ⟨rfl, roundQ_hasDecimals x 6, roundQ_hasDecimals y 6, roundQ_hasDecimals z 6⟩,
   fun y u v => ⟨rfl, roundQ_hasDecimals y 4, roundQ_hasDecimals u 4, roundQ_hasDecimals v 4⟩,
   fun l a b => ⟨rfl, roundQ_hasDecimals l 2, roundQ_hasDecimals a 2, roundQ_hasDecimals b 2⟩,
   fun y cb cr => ⟨rfl, roundQ_hasDecimals y 4, roundQ_hasDecimals cb 4,
     roundQ_hasDecimals cr 4⟩⟩

theorem simplify_hex7 (c1 c2 c3 c4 c5 c6 : Char) :
    simplify_hex (String.mk ['#', c1, c2, c3, c4, c5, c6]) =
      if c1 = c2 ∧ c3 = c4 ∧ c5 = c6 then String.mk ['#', c1, c3, c5]
      else String.mk ['#', c1, c2, c3, c4, c5, c6] := rfl

theorem simplify_hex9 (c1 c2 c3 c4 c5 c6 c7 c8 : Char) :
    simplify_hex (String.mk ['#', c1, c2, c3, c4, c5, c6, c7, c8]) =
      if c1 = c2 ∧ c3 = c4 ∧ c5 = c6 ∧ c7 = c8 then String.mk ['#', c1, c3, c5, c7]
      else String.mk ['#', c1, c2, c3, c4, c5, c6, c7, c8] := rfl

/-- C8: `Color::hex` includes an alpha component (a 9- or 5-character string)
iff `alpha ≠ 1.0` exactly; the long form is shortened to the 3/4-digit form
(length 4 resp. 5) iff every channel's two hex digits are identical; white at
alpha 1 prints `"#fff"` and `(0,0,0,0.2)` prints `"#0003"`. -/
theorem C8_hex_alpha_and_simplification (c : Color) :
    (c.alpha ≠ 1 ↔ (Color.hex c).length = 5 ∨ (Color.hex c).length = 9) ∧
    (c.alpha = 1 →
      ((Color.hex c).length = 4 ↔ hexPairsIdentical (rgb2hex c.rgb).data.tail)) ∧
    (c.alpha ≠ 1 →
      ((Color.hex c).length = 5 ↔
        hexPairsIdentical (rgba2hex (c.rgb.1, c.rgb.2.1, c.rgb.2.2, c.alpha)).data.tail)) ∧
    Color.hex ⟨(255, 255, 255), 1⟩ = "#fff" ∧
    Color.hex ⟨(0, 0, 0), 1 / 5⟩ = "#0003" := by
  obtain ⟨⟨r, g, b⟩, a⟩ := c
  dsimp only
  set d1 := hexDigit (u8OfF64 r / 16 % 16) with hd1
  set d2 := hexDigit (u8OfF64 r % 16) with hd2
  set d3 := hexDigit (u8OfF64 g / 16 % 16) with hd3
  set d4 := hexDigit (u8OfF64 g % 16) with hd4
  set d5 := hexDigit (u8OfF64 b / 16 % 16) with hd5
  set d6 := hexDigit (u8OfF64 b % 16) with hd6
  set d7 := hexDigit (u8OfF64 (a * 255) / 16 % 16) with hd7
  set d8 := hexDigit (u8OfF64 (a * 255) % 16) with hd8
  have hex6 : rgb2hex (r, g, b) = String.mk ['#', d1, d2, d3, d4, d5, d6] := rfl
  have hex8 : rgba2hex (r, g, b, a) = String.mk ['#', d1, d2, d3, d4, d5, d6, d7, d8] := rfl
  have htail6 : (String.mk ['#', d1, d2, d3, d4, d5, d6]).data.tail =
      [d1, d2, d3, d4, d5, d6] := rfl
  have htail8 : (String.mk ['#', d1, d2, d3, d4, d5, d6, d7, d8]).data.tail =
      [d1, d2, d3, d4, d5, d6, d7, d8] := rfl
  refine ⟨?_, ?_, ?_, by with_unfolding_all rfl, by with_unfolding_all rfl⟩
  · by_cases ha : a = 1
    · have hval : Color.hex ⟨(r, g, b), a⟩ = simplify_hex (String.mk ['#', d1, d2, d3, d4, d5, d6]) := by
        unfold Color.hex
        rw [if_pos ha, hex6]
      rw [hval, simplify_hex7]
      by_cases hp : d1 = d2 ∧ d3 = d4 ∧ d5 = d6
      · rw [if_pos hp]
        exact iff_of_false (fun hne => hne ha) (by intro hor; rcases hor with h | h <;> simp at h)
      · rw [if_neg hp]
        exact iff_of_false (fun hne => hne ha) (by intro hor; rcases hor with h | h <;> simp at h)
    · have hval : Color.hex ⟨(r, g, b), a⟩ =
          simplify_hex (String.mk ['#', d1, d2, d3, d4, d5, d6, d7, d8]) := by
        unfold Color.hex
        rw [if_neg ha, hex8]
      rw [hval, simplify_hex9]
      by_cases hp : d1 = d2 ∧ d3 = d4 ∧ d5 = d6 ∧ d7 = d8
      · rw [if_pos hp]
        exact iff_of_true ha (Or.inl rfl)
      · rw [if_neg hp]
        exact iff_of_true ha (Or.inr rfl)
  · intro ha
    have hval : Color.hex ⟨(r, g, b), a⟩ = simplify_hex (String.mk ['#', d1, d2, d3, d4, d5, d6]) := by
      unfold Color.hex
      rw [if_pos ha, hex6]
    rw [hval, simplify_hex7, hex6, htail6]
    by_cases hp : d1 = d2 ∧ d3 = d4 ∧ d5 = d6
    · rw [if_pos hp]
      exact iff_of_true rfl ⟨hp.1, hp.2.1, hp.2.2, trivial⟩
    · rw [if_neg hp]
      exact iff_of_false (by simp) (fun hpi => hp ⟨hpi.1, hpi.2.1, hpi.2.2.1⟩)
  · intro ha
    have hval : Color.hex ⟨(r, g, b), a⟩ =
        simplify_hex (String.mk ['#', d1, d2, d3, d4, d5, d6, d7, d8]) := by
      unfold Color.hex
      rw [if_neg ha, hex8]
    rw [hval, simplify_hex9, hex8, htail8]
    by_cases hp : d1 = d2 ∧ d3 = d4 ∧ d5 = d6 ∧ d7 = d8
    · rw [if_pos hp]
      exact iff_of_true rfl ⟨hp.1, hp.2.1, hp.2.2.1, hp.2.2.2, trivial⟩
    · rw [if_neg hp]
      exact iff_of_false (by simp) (fun hpi => hp ⟨hpi.1, hpi.2.1, hpi.2.2.1, hpi.2.2.2.1⟩)

/-- C9: `Color::name` returns the looked-up table name when `alpha = 1` and the
full-length hex has a table entry, the color's own (full-length) hex string
when `alpha = 1` and no entry exists, and for every color with `alpha ≠ 1` the
color's hex string (`Color::hex`), never a lookup name; `(255,255,255,1)` names
as `"white"` and `(42,42,42,1)` as `"#2a2a2a"`. -/
theorem C9_name_lookup_fallback (c : Color) :
    (c.alpha = 1 → ∀ n, name_of_hex (rgb2hex c.rgb) = some n → Color.name c = n) ∧
    (c.alpha = 1 → name_of_hex (rgb2hex c.rgb) = none → Color.name c = rgb2hex c.rgb) ∧
    (c.alpha ≠ 1 → Color.name c = Color.hex c) ∧
    Color.name ⟨(255, 255, 255), 1⟩ = "white" ∧
    Color.name ⟨(42, 42, 42), 1⟩ = "#2a2a2a" := by
  refine ⟨?_, ?_, ?_, by with_unfolding_all rfl, by with_unfolding_all rfl⟩
  · intro ha n hn
    unfold Color.name
    rw [if_pos ha]
    simp only [hn]
  · intro ha hn
    unfold Color.name
    rw [if_pos ha]
    simp only [hn]
  · intro ha
    unfold Color.name
    rw [if_neg ha]
